import Mathlib

/-!
Shallow embedding of the MHF patch server (`src/main.go`): the manifest
builder `loadFolderData`, the conditional handler `checkHandler`, and a
transition-system model of the channel-based `concurrencyLimiter`.
Go byte slices are modelled as `List Nat` (each element a byte value),
Go strings as `List Char`, and SHA-256 (`crypto/sha256`) is implemented
in full over `Nat` words reduced modulo `2 ^ 32`.
-/

/-- Reduce a natural number to a 32-bit word, as Go's `uint32` arithmetic does. -/
def w32 (x : Nat) : Nat := x % 4294967296

/-- Right rotation of a 32-bit word by `n` bits. -/
def rotr (n x : Nat) : Nat := w32 ((x >>> n) ||| (x <<< (32 - n)))

/-- Bitwise complement within 32 bits. -/
def notW (x : Nat) : Nat := x ^^^ 4294967295

/-- SHA-256 `Ch` function. -/
def chF (x y z : Nat) : Nat := (x &&& y) ^^^ (notW x &&& z)

/-- SHA-256 `Maj` function. -/
def majF (x y z : Nat) : Nat := (x &&& y) ^^^ (x &&& z) ^^^ (y &&& z)

/-- SHA-256 big sigma 0. -/
def bigS0 (x : Nat) : Nat := rotr 2 x ^^^ rotr 13 x ^^^ rotr 22 x

/-- SHA-256 big sigma 1. -/
def bigS1 (x : Nat) : Nat := rotr 6 x ^^^ rotr 11 x ^^^ rotr 25 x

/-- SHA-256 small sigma 0. -/
def smallS0 (x : Nat) : Nat := rotr 7 x ^^^ rotr 18 x ^^^ (x >>> 3)

/-- SHA-256 small sigma 1. -/
def smallS1 (x : Nat) : Nat := rotr 17 x ^^^ rotr 19 x ^^^ (x >>> 10)

/-- The 64 SHA-256 round constants. -/
def K256 : List Nat :=
  [1116352408, 1899447441, 3049323471, 3921009573,
   961987163, 1508970993, 2453635748, 2870763221,
   3624381080, 310598401, 607225278, 1426881987,
   1925078388, 2162078206, 2614888103, 3248222580,
   3835390401, 4022224774, 264347078, 604807628,
   770255983, 1249150122, 1555081692, 1996064986,
   2554220882, 2821834349, 2952996808, 3210313671,
   3336571891, 3584528711, 113926993, 338241895,
   666307205, 773529912, 1294757372, 1396182291,
   1695183700, 1986661051, 2177026350, 2456956037,
   2730485921, 2820302411, 3259730800, 3345764771,
   3516065817, 3600352804, 4094571909, 275423344,
   430227734, 506948616, 659060556, 883997877,
   958139571, 1322822218, 1537002063, 1747873779,
   1955562222, 2024104815, 2227730452, 2361852424,
   2428436474, 2756734187, 3204031479, 3329325298]

/-- The eight 32-bit words of SHA-256 working state. -/
structure Hash8 where
  a : Nat
  b : Nat
  c : Nat
  d : Nat
  e : Nat
  f : Nat
  g : Nat
  h : Nat

/-- SHA-256 initial hash value. -/
def H0init : Hash8 :=
  ⟨1779033703, 3144134277, 1013904242, 2773480762,
   1359893119, 2600822924, 528734635, 1541459225⟩

/-- Extend the message schedule by `n` further words; `acc` holds the words
computed so far, most recent first. -/
def extendSched : Nat → List Nat → List Nat
  | 0, acc => acc
  | n + 1, acc =>
    let g := fun k => acc.getD k 0
    extendSched n (w32 (smallS1 (g 1) + g 6 + smallS0 (g 14) + g 15) :: acc)

/-- One SHA-256 compression round with schedule word `w` and constant `k`. -/
def roundStep (s : Hash8) (w k : Nat) : Hash8 :=
  let t1 := w32 (s.h + bigS1 s.e + chF s.e s.f s.g + k + w)
  let t2 := w32 (bigS0 s.a + majF s.a s.b s.c)
  ⟨w32 (t1 + t2), s.a, s.b, s.c, w32 (s.d + t1), s.e, s.f, s.g⟩

/-- Compress one 16-word block into the running state. -/
def processBlock (s : Hash8) (ws : List Nat) : Hash8 :=
  let sched := (extendSched 48 ws.reverse).reverse
  let t := (sched.zip K256).foldl (fun st p => roundStep st p.1 p.2) s
  ⟨w32 (s.a + t.a), w32 (s.b + t.b), w32 (s.c + t.c), w32 (s.d + t.d),
   w32 (s.e + t.e), w32 (s.f + t.f), w32 (s.g + t.g), w32 (s.h + t.h)⟩

/-- Big-endian 32-bit word from four bytes. -/
def wordOf (b0 b1 b2 b3 : Nat) : Nat :=
  (b0 % 256) * 16777216 + (b1 % 256) * 65536 + (b2 % 256) * 256 + b3 % 256

/-- Group bytes four at a time into big-endian words. -/
def bytesToWords : List Nat → List Nat
  | b0 :: b1 :: b2 :: b3 :: rest => wordOf b0 b1 b2 b3 :: bytesToWords rest
  | _ => []

/-- Message length in bits as eight big-endian bytes. -/
def lenBytes (n : Nat) : List Nat :=
  [(n >>> 56) % 256, (n >>> 48) % 256, (n >>> 40) % 256, (n >>> 32) % 256,
   (n >>> 24) % 256, (n >>> 16) % 256, (n >>> 8) % 256, n % 256]

/-- SHA-256 padding: append `0x80`, zeros to 56 mod 64, then the bit length. -/
def padMsg (msg : List Nat) : List Nat :=
  let L := msg.length
  msg ++ 128 :: (List.replicate ((119 - L % 64) % 64) 0 ++ lenBytes (8 * L))

/-- Process `n` successive 64-byte chunks of `bs`. -/
def processChunks : Nat → Hash8 → List Nat → Hash8
  | 0, s, _ => s
  | n + 1, s, bs => processChunks n (processBlock s (bytesToWords (bs.take 64))) (bs.drop 64)

/-- A 32-bit word as four big-endian bytes. -/
def wordBytes (w : Nat) : List Nat := [(w >>> 24) % 256, (w >>> 16) % 256, (w >>> 8) % 256, w % 256]

/-- The final state as a 32-byte digest. -/
def digestBytes (s : Hash8) : List Nat :=
  wordBytes s.a ++ wordBytes s.b ++ wordBytes s.c ++ wordBytes s.d ++
  wordBytes s.e ++ wordBytes s.f ++ wordBytes s.g ++ wordBytes s.h

/-- SHA-256 of a byte sequence, as the 32 digest bytes (Go `crypto/sha256`). -/
def sha256 (msg : List Nat) : List Nat :=
  let p := padMsg msg
  digestBytes (processChunks (p.length / 64) H0init p)

/-- The lowercase hex alphabet used by Go `encoding/hex`. -/
def hexTable : List Char := "0123456789abcdef".data

/-- Hex digit character for a nibble. -/
def hexDigit (n : Nat) : Char := hexTable.getD n '0'

/-- Two hex characters for one byte. -/
def hexByte (b : Nat) : List Char := [hexDigit (b / 16), hexDigit (b % 16)]

/-- Lowercase hex encoding of a byte sequence (Go `hex.EncodeToString`). -/
def hexEncode (bs : List Nat) : List Char := (bs.map hexByte).flatten

/-- UTF-8 encoding of one character, as byte values. -/
def utf8Bytes (c : Char) : List Nat :=
  let n := c.toNat
  if n < 128 then [n]
  else if n < 2048 then [192 ||| (n >>> 6), 128 ||| (n &&& 63)]
  else if n < 65536 then
    [224 ||| (n >>> 12), 128 ||| ((n >>> 6) &&& 63), 128 ||| (n &&& 63)]
  else
    [240 ||| (n >>> 18), 128 ||| ((n >>> 12) &&& 63), 128 ||| ((n >>> 6) &&& 63), 128 ||| (n &&& 63)]

/-- The bytes of a Go string (UTF-8), from its characters. -/
def strBytes (s : List Char) : List Nat := (s.map utf8Bytes).flatten

/-- Go `strings.TrimPrefix(s, pre)`: drop `pre` from the front of `s` when it
is a prefix, otherwise return `s` unchanged. -/
def trimRoot (s pre : List Char) : List Char :=
  if pre.isPrefixOf s then s.drop pre.length else s

/-- Go `strings.ReplaceAll(s, "\\", "/")`: the pattern is a single byte, so
the replacement is a character-wise map. -/
def normSlash (s : List Char) : List Char :=
  s.map (fun c => if c = '\\' then '/' else c)

/-- The exclusion-marker suffix checked by `loadFolderData` (line 62). -/
def gitkeepMark : List Char := ".gitkeep".data

/-- The in-memory manifest (`DirData` in `main.go`): the quoted aggregate
validator and the serialized manifest body. -/
structure DirData where
  ChecksumHeader : List Char
  ChecksumsBody : List Nat
deriving DecidableEq

/-- One event seen by the `filepath.WalkDir` callback in `loadFolderData`:
a directory entry, a regular file with its content bytes, or an I/O failure
(a non-nil walk error, an `os.Open` failure, or an `io.Copy` failure — each
of which hits `log.Fatal` in the source). -/
inductive WalkEntry
  | dir (path : List Char)
  | file (path : List Char) (content : List Nat)
  | ioError
deriving DecidableEq

/-- The per-file checksum of lines 70–74: lowercase hex of the SHA-256 of the
file's bytes. -/
def fileChecksum (content : List Nat) : List Char := hexEncode (sha256 content)

/-- The relative path of line 75: trim the root directory prefix and turn
backslashes into forward slashes. -/
def relPath (root path : List Char) : List Char := normSlash (trimRoot path root)

/-- The serialized manifest line of line 76: `"%s\t%s\n"` of checksum and
relative path, as UTF-8 bytes. -/
def fileLine (root path : List Char) (content : List Nat) : List Nat :=
  strBytes (fileChecksum content ++ '\t' :: (relPath root path ++ ['\n']))

/-- One step of the walk callback (lines 58–79). The accumulator pairs the
bytes appended to `folderData.ChecksumsBody` with the bytes written to the
aggregate `hasher`; `none` models `log.Fatal` aborting the process. -/
def entryStep (root : List Char) (acc : List Nat × List Nat) :
    WalkEntry → Option (List Nat × List Nat)
  | .ioError => none
  | .dir _ => some acc
  | .file path content =>
    if gitkeepMark.isSuffixOf path then some acc
    else some (acc.1 ++ fileLine root path content, acc.2 ++ fileLine root path content)

/-- Run the walk callback over the traversal's entries in order. -/
def runWalk (root : List Char) : List WalkEntry → (List Nat × List Nat) →
    Option (List Nat × List Nat)
  | [], acc => some acc
  | e :: es, acc =>
    match entryStep root acc e with
    | none => none
    | some acc2 => runWalk root es acc2

/-- `loadFolderData` (lines 55–85): walk the tree rooted at `root`, build the
serialized body and feed the same bytes to the aggregate hasher, then wrap the
aggregate digest in double quotes. `none` models the process aborting. -/
def loadFolderData (root : List Char) (entries : List WalkEntry) : Option DirData :=
  match runWalk root entries ([], []) with
  | none => none
  | some acc =>
    some ⟨'"' :: (hexEncode (sha256 acc.2) ++ ['"']), acc.1⟩

/-- An HTTP response as `checkHandler` writes it: status code, the optional
`ETag` header, and the body bytes. -/
structure HttpResponse where
  status : Nat
  etagHeader : Option (List Char)
  body : List Nat
deriving DecidableEq

/-- `checkHandler` (lines 97–106). `ifNoneMatch` is the client's
`If-None-Match` header; Go's `Header.Get` yields the empty string when the
header is absent. -/
def checkHandler (force : Bool) (fd : DirData) (ifNoneMatch : Option (List Char)) :
    HttpResponse :=
  let etag := ifNoneMatch.getD []
  if !force && etag == fd.ChecksumHeader then
    ⟨304, none, []⟩
  else
    ⟨200, some fd.ChecksumHeader, fd.ChecksumsBody⟩

/-- Where a request to the semaphore-wrapped patch handler stands:
still blocked on `sem <- struct{}{}`, executing the inner handler,
or finished (its deferred `<-sem` has run). -/
inductive Phase
  | waiting
  | running
  | done
deriving DecidableEq

/-- How many requests are inside the inner handler. -/
def countRunning : List Phase → Nat
  | [] => 0
  | .running :: ps => countRunning ps + 1
  | _ :: ps => countRunning ps

/-- A scheduling event of `concurrencyLimiter` (lines 88–95). -/
inductive SemLabel
  | start (i : Nat)
  | finish (i : Nat)

/-- The semantics of `concurrencyLimiter`'s channel of capacity `cap`:
request `i` may enter the inner handler only when fewer than `cap` requests
are inside (`sem <- struct{}{}` succeeds only then — for `cap = 0` the
channel is unbuffered and no deferred receiver can ever be ready); a running
request may finish at any time, its deferred `<-sem` freeing exactly its
slot. -/
inductive SemStep (cap : Nat) : List Phase → SemLabel → List Phase → Prop
  | start (s : List Phase) (i : Nat) :
      s.get? i = some Phase.waiting → countRunning s < cap →
      SemStep cap s (SemLabel.start i) (s.set i Phase.running)
  | finish (s : List Phase) (i : Nat) :
      s.get? i = some Phase.running →
      SemStep cap s (SemLabel.finish i) (s.set i Phase.done)

/-- Reachability under `SemStep` from an initial population of requests. -/
inductive SemReach (cap : Nat) (init : List Phase) : List Phase → Prop
  | refl : SemReach cap init init
  | step {s s' : List Phase} {l : SemLabel} :
      SemReach cap init s → SemStep cap s l s' → SemReach cap init s'

theorem digestBytes_length (s : Hash8) : (digestBytes s).length = 32 := rfl

theorem sha256_length (msg : List Nat) : (sha256 msg).length = 32 :=
  digestBytes_length _

theorem getD_self_or_mem (l : List Char) (d : Char) :
    ∀ n : Nat, l.getD n d = d ∨ l.getD n d ∈ l := by
  induction l with
  | nil => intro n; left; rfl
  | cons a l ih =>
    intro n
    match n with
    | 0 => right; exact List.mem_cons_self a l
    | Nat.succ m =>
      have h : (a :: l).getD (m + 1) d = l.getD m d := by simp [List.getD]
      rw [h]
      rcases ih m with h1 | h1
      · exact Or.inl h1
      · exact Or.inr (List.mem_cons_of_mem a h1)

theorem hexDigit_mem (n : Nat) : hexDigit n ∈ hexTable := by
  rcases getD_self_or_mem hexTable '0' n with h | h
  · show hexTable.getD n '0' ∈ hexTable
    rw [h]; decide
  · exact h

theorem hexEncode_length (bs : List Nat) : (hexEncode bs).length = 2 * bs.length := by
  induction bs with
  | nil => rfl
  | cons b bs ih =>
    have h : hexEncode (b :: bs) = hexByte b ++ hexEncode bs := rfl
    rw [h, List.length_append, ih, List.length_cons]
    show 2 + 2 * bs.length = 2 * (bs.length + 1)
    omega

theorem hexEncode_all_mem (bs : List Nat) : ∀ c ∈ hexEncode bs, c ∈ hexTable := by
  induction bs with
  | nil => intro c hc; rw [show hexEncode [] = [] from rfl] at hc; cases hc
  | cons b bs ih =>
    intro c hc
    rw [show hexEncode (b :: bs) = hexByte b ++ hexEncode bs from rfl] at hc
    rcases List.mem_append.mp hc with h1 | h1
    · simp only [hexByte, List.mem_cons, List.not_mem_nil, or_false] at h1
      rcases h1 with rfl | rfl
      · exact hexDigit_mem _
      · exact hexDigit_mem _
    · exact ih c h1

/-- Claim C5: every per-file checksum placed in a manifest entry is a
64-character string of lowercase hexadecimal characters — the hex encoding
of a 256-bit (32-byte) digest. -/
theorem fileChecksum_hex64 (content : List Nat) :
    (fileChecksum content).length = 64 ∧
      (fileChecksum content).all (fun c => hexTable.contains c) = true := by
  constructor
  · rw [fileChecksum, hexEncode_length, sha256_length]
  · rw [List.all_eq_true]
    intro c hc
    exact List.elem_eq_true_of_mem (hexEncode_all_mem _ c hc)

theorem runWalk_append (root : List Char) (es1 es2 : List WalkEntry) :
    ∀ acc, runWalk root (es1 ++ es2) acc =
      (runWalk root es1 acc).bind (fun a => runWalk root es2 a) := by
  induction es1 with
  | nil => intro acc; rfl
  | cons e es ih =>
    intro acc
    show runWalk root (e :: (es ++ es2)) acc = _
    cases h : entryStep root acc e with
    | none => simp [runWalk, h]
    | some acc2 => simp [runWalk, h, ih]

theorem runWalk_error (root : List Char) :
    ∀ (es : List WalkEntry) acc, WalkEntry.ioError ∈ es → runWalk root es acc = none := by
  intro es
  induction es with
  | nil => intro acc h; cases h
  | cons e es ih =>
    intro acc h
    rcases List.mem_cons.mp h with rfl | h1
    · rfl
    · cases hstep : entryStep root acc e with
      | none => simp [runWalk, hstep]
      | some acc2 => simp [runWalk, hstep, ih acc2 h1]

theorem runWalk_sync (root : List Char) :
    ∀ (es : List WalkEntry) (acc r : List Nat × List Nat),
      acc.1 = acc.2 → runWalk root es acc = some r → r.1 = r.2 := by
  intro es
  induction es with
  | nil =>
    intro acc r h hr
    cases hr
    exact h
  | cons e es ih =>
    intro acc r h hr
    cases e with
    | ioError => exact absurd hr (by simp [runWalk, entryStep])
    | dir p => exact ih acc r h (by simpa [runWalk, entryStep] using hr)
    | file p c =>
      by_cases hs : gitkeepMark.isSuffixOf p = true
      · exact ih acc r h (by simpa [runWalk, entryStep, hs] using hr)
      · refine ih (acc.1 ++ fileLine root p c, acc.2 ++ fileLine root p c) r (by rw [h]) ?_
        simpa [runWalk, entryStep, hs] using hr

/-- Claim C2: whenever the builder succeeds, the aggregate checksum is the
SHA-256 digest of the serialized body — the quoted hex string in
`ChecksumHeader`, with its surrounding quotes removed, is the lowercase hex
encoding of the digest of `ChecksumsBody`. -/
theorem aggregateChecksum_digest_of_body (root : List Char) (es : List WalkEntry)
    (fd : DirData) (h : loadFolderData root es = some fd) :
    (fd.ChecksumHeader.drop 1).dropLast = hexEncode (sha256 fd.ChecksumsBody) := by
  rw [loadFolderData] at h
  cases hrw : runWalk root es ([], []) with
  | none => rw [hrw] at h; cases h
  | some acc =>
    rw [hrw] at h
    cases h
    have hsync : acc.1 = acc.2 := runWalk_sync root es ([], []) acc rfl hrw
    show (('"' :: (hexEncode (sha256 acc.2) ++ ['"'])).drop 1).dropLast =
      hexEncode (sha256 acc.1)
    rw [hsync]
    simp [List.dropLast_concat]

/-- The manifest the builder produces for an empty traversal. -/
def emptyFd : DirData := ⟨'"' :: (hexEncode (sha256 []) ++ ['"']), []⟩

theorem aggregateChecksum_digest_of_body_witness :
    (emptyFd.ChecksumHeader.drop 1).dropLast = hexEncode (sha256 emptyFd.ChecksumsBody) :=
  aggregateChecksum_digest_of_body [] [] emptyFd rfl

/-- Claim C6: a file whose name ends with ".gitkeep" produces no manifest
entry regardless of its content, and a directory produces none either:
removing such a traversal entry leaves the built manifest unchanged. -/
theorem loadFolderData_excludes (root : List Char) (pre post : List WalkEntry)
    (p : List Char) (content : List Nat) (hp : gitkeepMark.isSuffixOf p = true) :
    loadFolderData root (pre ++ WalkEntry.file p content :: post) =
      loadFolderData root (pre ++ post) ∧
    ∀ q : List Char, loadFolderData root (pre ++ WalkEntry.dir q :: post) =
      loadFolderData root (pre ++ post) := by
  have key : ∀ e : WalkEntry, (∀ acc, entryStep root acc e = some acc) →
      loadFolderData root (pre ++ e :: post) = loadFolderData root (pre ++ post) := by
    intro e he
    have hb : (runWalk root pre ([], [])).bind (fun a => runWalk root (e :: post) a) =
        (runWalk root pre ([], [])).bind (fun a => runWalk root post a) := by
      cases runWalk root pre ([], []) with
      | none => rfl
      | some a =>
        show runWalk root (e :: post) a = runWalk root post a
        simp [runWalk, he a]
    rw [loadFolderData, loadFolderData, runWalk_append, runWalk_append, hb]
  refine ⟨key _ (fun acc => by simp [entryStep, hp]), fun q => key _ (fun acc => rfl)⟩

theorem loadFolderData_excludes_witness :
    loadFolderData "/r".data [WalkEntry.file "/r/x.gitkeep".data [1, 2]] =
      loadFolderData "/r".data [] ∧
    loadFolderData "/r".data [WalkEntry.dir "/r/d".data] = loadFolderData "/r".data [] := by
  have h := loadFolderData_excludes "/r".data [] [] "/r/x.gitkeep".data [1, 2] (by decide)
  exact ⟨h.1, h.2 "/r/d".data⟩

/-- Claim C7: any I/O error during the traversal aborts the entire build —
the builder publishes no manifest value at all. -/
theorem loadFolderData_aborts (root : List Char) (es : List WalkEntry)
    (h : WalkEntry.ioError ∈ es) : loadFolderData root es = none := by
  rw [loadFolderData, runWalk_error root es ([], []) h]

theorem loadFolderData_aborts_witness :
    loadFolderData "/r".data [WalkEntry.dir "/r".data, WalkEntry.ioError] = none :=
  loadFolderData_aborts _ _ (by decide)

theorem loadFolderData_header_ne (root : List Char) (es : List WalkEntry)
    (fd : DirData) (h : loadFolderData root es = some fd) : fd.ChecksumHeader ≠ [] := by
  rw [loadFolderData] at h
  cases hrw : runWalk root es ([], []) with
  | none => rw [hrw] at h; cases h
  | some acc => rw [hrw] at h; cases h; simp

/-- Claim C1: against a built manifest, if `Force` is set, or the client's
`If-None-Match` token is absent, or it differs byte-for-byte from the current
aggregate validator, `checkHandler` answers 200 with the `ETag` header set to
the aggregate validator and `ChecksumsBody` as the body; otherwise it answers
304 with no `ETag` and an empty body. -/
theorem checkHandler_conditional (force : Bool) (root : List Char)
    (es : List WalkEntry) (fd : DirData) (tok : Option (List Char))
    (hfd : loadFolderData root es = some fd) :
    ((force = true ∨ tok = none ∨ (∀ t, tok = some t → t ≠ fd.ChecksumHeader)) →
      checkHandler force fd tok = ⟨200, some fd.ChecksumHeader, fd.ChecksumsBody⟩) ∧
    (force = false → tok = some fd.ChecksumHeader →
      checkHandler force fd tok = ⟨304, none, []⟩) := by
  have hne : fd.ChecksumHeader ≠ [] := loadFolderData_header_ne root es fd hfd
  constructor
  · intro hcase
    rcases hcase with rfl | rfl | hd
    · rfl
    · rw [checkHandler]
      rw [if_neg]
      intro hcond
      rcases Bool.and_eq_true_iff.mp hcond with ⟨-, h2⟩
      exact hne (by simpa using (beq_iff_eq.mp h2).symm)
    · cases tok with
      | none =>
        rw [checkHandler, if_neg]
        intro hcond
        rcases Bool.and_eq_true_iff.mp hcond with ⟨-, h2⟩
        exact hne (by simpa using (beq_iff_eq.mp h2).symm)
      | some t =>
        rw [checkHandler, if_neg]
        intro hcond
        rcases Bool.and_eq_true_iff.mp hcond with ⟨-, h2⟩
        exact hd t rfl (by simpa using beq_iff_eq.mp h2)
  · intro hf htok
    subst hf
    subst htok
    rw [checkHandler, if_pos]
    exact Bool.and_eq_true_iff.mpr ⟨rfl, beq_iff_eq.mpr rfl⟩

theorem checkHandler_conditional_witness :
    checkHandler false emptyFd none =
      ⟨200, some emptyFd.ChecksumHeader, emptyFd.ChecksumsBody⟩ ∧
    checkHandler false emptyFd (some emptyFd.ChecksumHeader) = ⟨304, none, []⟩ :=
  ⟨(checkHandler_conditional false [] [] emptyFd none rfl).1 (Or.inr (Or.inl rfl)),
   (checkHandler_conditional false [] [] emptyFd (some emptyFd.ChecksumHeader) rfl).2 rfl rfl⟩

theorem isPrefixOf_append_self (l t : List Char) : l.isPrefixOf (l ++ t) = true := by
  rw [List.isPrefixOf_iff_prefix]
  exact List.prefix_append l t

theorem trimRoot_append (root t : List Char) : trimRoot (root ++ t) root = t := by
  rw [trimRoot, if_pos (isPrefixOf_append_self root t)]
  exact List.drop_left root t

/-- Claim C10: for a file lying under the root (absolute path =
root + "/" + rest), trimming the root prefix keeps the separator: the
relative path starts with a forward slash, and the serialized line has the
shape checksum, tab, slash-led path, newline, with a 64-character checksum. -/
theorem entry_line_slash (root rest : List Char) (content : List Nat)
    (acc : List Nat × List Nat)
    (hk : gitkeepMark.isSuffixOf (root ++ '/' :: rest) = false) :
    entryStep root acc (WalkEntry.file (root ++ '/' :: rest) content) =
      some (acc.1 ++ fileLine root (root ++ '/' :: rest) content,
            acc.2 ++ fileLine root (root ++ '/' :: rest) content) ∧
    fileLine root (root ++ '/' :: rest) content =
      strBytes (fileChecksum content ++ '\t' :: '/' :: (normSlash rest ++ ['\n'])) ∧
    (fileChecksum content).length = 64 := by
  refine ⟨by simp [entryStep, hk], ?_, ?_⟩
  · rw [fileLine, relPath, trimRoot_append root ('/' :: rest)]
    rfl
  · rw [fileChecksum, hexEncode_length, sha256_length]

theorem entry_line_slash_witness : (fileChecksum [104]).length = 64 :=
  (entry_line_slash "/r".data "a.txt".data [104] ([], []) (by decide)).2.2

/-- The tree as the builder sees it: the included files in traversal order
(absolute path and content bytes), dropping directories and excluded files;
`none` when the walk errors. This captures exactly the file set, the file
contents, and the traversal order. -/
def walkView : List WalkEntry → Option (List (List Char × List Nat))
  | [] => some []
  | WalkEntry.ioError :: _ => none
  | WalkEntry.dir _ :: es => walkView es
  | WalkEntry.file p c :: es =>
    if gitkeepMark.isSuffixOf p then walkView es
    else (walkView es).map (fun l => (p, c) :: l)

/-- Folding the included files of a traversal into the two accumulators. -/
def viewFold (root : List Char) :
    (List Nat × List Nat) → List (List Char × List Nat) → (List Nat × List Nat)
  | acc, [] => acc
  | acc, (p, c) :: l =>
    viewFold root (acc.1 ++ fileLine root p c, acc.2 ++ fileLine root p c) l

theorem runWalk_view (root : List Char) :
    ∀ (es : List WalkEntry) (acc : List Nat × List Nat),
      runWalk root es acc = (walkView es).map (viewFold root acc) := by
  intro es
  induction es with
  | nil => intro acc; rfl
  | cons e es ih =>
    intro acc
    cases e with
    | ioError => rfl
    | dir p => exact ih acc
    | file p c =>
      by_cases hs : gitkeepMark.isSuffixOf p = true
      · simpa [runWalk, entryStep, hs, walkView] using ih acc
      · rw [show runWalk root (WalkEntry.file p c :: es) acc =
            runWalk root es (acc.1 ++ fileLine root p c, acc.2 ++ fileLine root p c) by
              simp [runWalk, entryStep, hs]]
        rw [ih, show walkView (WalkEntry.file p c :: es) =
            (walkView es).map (fun l => (p, c) :: l) by simp [walkView, hs]]
        cases walkView es with
        | none => rfl
        | some v => rfl

/-- Claim C3: the build is a deterministic function of the tree's file set,
file contents, and traversal order — two traversals presenting the same
included files in the same order (`walkView`) yield identical manifests, so
building twice over an unchanged tree gives an identical aggregate checksum
and a byte-for-byte identical serialized body. -/
theorem loadFolderData_deterministic (root : List Char) (es1 es2 : List WalkEntry)
    (h : walkView es1 = walkView es2) :
    loadFolderData root es1 = loadFolderData root es2 := by
  rw [loadFolderData, loadFolderData, runWalk_view, runWalk_view, h]

theorem loadFolderData_deterministic_witness :
    loadFolderData "/r".data [WalkEntry.dir "/r".data, WalkEntry.file "/r/a".data [7]] =
      loadFolderData "/r".data [WalkEntry.file "/r/a".data [7]] :=
  loadFolderData_deterministic "/r".data _ _ (by decide)

/-- The bytes of the string "hello". -/
def helloBytes : List Nat := strBytes "hello".data

/-- The root of the spec's concrete-example tree. -/
def helloRoot : List Char := "/r".data

/-- The traversal of a tree holding only `a.txt` with content "hello". -/
def helloTree : List WalkEntry :=
  [WalkEntry.dir "/r".data, WalkEntry.file "/r/a.txt".data helloBytes]

/-- The manifest line written in the spec's concrete example; its checksum
string has only 63 hex digits. -/
def specExampleLine : List Nat :=
  strBytes ("2cf24dba5fb0a30e26e83b2ac5b9e29e1b161e5c1fa7425e73043362938b982".data ++
    '\t' :: ("/a.txt".data ++ ['\n']))

/-- The manifest line the builder actually produces: the full 64-hex-digit
SHA-256 of "hello", a tab, `/a.txt`, a newline. -/
def helloLine : List Nat :=
  strBytes ("2cf24dba5fb0a30e26e83b2ac5b9e29e1b161e5c1fa7425e73043362938b9824".data ++
    '\t' :: ("/a.txt".data ++ ['\n']))

set_option maxRecDepth 100000 in
/-- Claim C4 fails as written: over the hello tree the serialized body is not
the line printed in the spec — the spec's checksum string is missing the
final hex digit of SHA-256("hello"). -/
theorem helloTree_body_ne_spec_line :
    (loadFolderData helloRoot helloTree).map DirData.ChecksumsBody ≠
      some specExampleLine := by
  decide

set_option maxRecDepth 100000 in
/-- Claim C4 amended: over the hello tree the manifest holds exactly one
entry, the serialized body is exactly the line
`2cf24dba5fb0a30e26e83b2ac5b9e29e1b161e5c1fa7425e73043362938b9824\t/a.txt\n`
(the full 64-digit SHA-256 of "hello"), and the aggregate checksum is the
digest of exactly that line's bytes. -/
theorem helloTree_manifest :
    loadFolderData helloRoot helloTree =
      some ⟨'"' :: (hexEncode (sha256 helloLine) ++ ['"']), helloLine⟩ := by
  decide

theorem countRunning_set_run :
    ∀ (s : List Phase) (i : Nat), s.get? i = some Phase.waiting →
      countRunning (s.set i Phase.running) = countRunning s + 1 := by
  intro s
  induction s with
  | nil => intro i h; cases h
  | cons p s ih =>
    intro i h
    cases i with
    | zero =>
      injection h with h
      subst h
      rfl
    | succ n =>
      have h' : s.get? n = some Phase.waiting := h
      show countRunning (p :: s.set n Phase.running) = countRunning (p :: s) + 1
      cases p <;> simp [countRunning, ih n h']

theorem countRunning_set_done :
    ∀ (s : List Phase) (i : Nat), s.get? i = some Phase.running →
      countRunning (s.set i Phase.done) + 1 = countRunning s := by
  intro s
  induction s with
  | nil => intro i h; cases h
  | cons p s ih =>
    intro i h
    cases i with
    | zero =>
      injection h with h
      subst h
      rfl
    | succ n =>
      have h' : s.get? n = some Phase.running := h
      show countRunning (p :: s.set n Phase.done) + 1 = countRunning (p :: s)
      cases p <;> simp [countRunning, ih n h']

theorem countRunning_all_waiting :
    ∀ s : List Phase, (∀ p ∈ s, p = Phase.waiting) → countRunning s = 0 := by
  intro s
  induction s with
  | nil => intro _; rfl
  | cons p s ih =>
    intro h
    have hp := h p (List.mem_cons_self p s)
    subst hp
    exact ih (fun q hq => h q (List.mem_cons_of_mem _ hq))

/-- Claim C8: with channel capacity `cap`, in every state reachable from a
population of waiting requests at most `cap` requests are inside the wrapped
handler; when `cap` are inside, no further request can start — an extra
concurrent request cannot enter the inner handler until one of the running
ones finishes; and every finish (the deferred receive, which runs on every
exit path of the inner handler) releases exactly one slot, so capacity never
leaks. -/
theorem concurrencyLimiter_bound (cap : Nat) (init s : List Phase)
    (hinit : ∀ p ∈ init, p = Phase.waiting) (hreach : SemReach cap init s) :
    countRunning s ≤ cap ∧
    (countRunning s = cap → ∀ (i : Nat) (s' : List Phase),
      ¬ SemStep cap s (SemLabel.start i) s') ∧
    (∀ (i : Nat) (s' : List Phase), SemStep cap s (SemLabel.finish i) s' →
      countRunning s' + 1 = countRunning s) := by
  have hbound : countRunning s ≤ cap := by
    induction hreach with
    | refl => rw [countRunning_all_waiting init hinit]; exact Nat.zero_le cap
    | step hr hstep ih =>
      cases hstep with
      | start i hw hc => rw [countRunning_set_run _ i hw]; omega
      | finish i hr2 =>
        have hd := countRunning_set_done _ i hr2
        omega
  refine ⟨hbound, ?_, ?_⟩
  · intro hfull i s' hstep
    cases hstep with
    | start i hw hc => omega
  · intro i s' hstep
    cases hstep with
    | finish i hr2 => exact countRunning_set_done s i hr2

theorem concurrencyLimiter_bound_witness : countRunning [Phase.running] ≤ 1 :=
  (concurrencyLimiter_bound 1 [Phase.waiting] [Phase.running] (by decide)
    (SemReach.step SemReach.refl
      (show SemStep 1 [Phase.waiting] (SemLabel.start 0)
          ([Phase.waiting].set 0 Phase.running) from
        SemStep.start [Phase.waiting] 0 rfl (by decide)))).1

/-- Claim C9: with `MaxClients = 0` the channel `make(chan struct\x7b\x7d, 0)`
is unbuffered, and since the only receives are the deferred ones of requests
already inside, no acquisition can ever succeed: every reachable state is the
initial all-waiting one and no request ever enters the inner handler. The
code never validates that the configured capacity is positive. -/
theorem concurrencyLimiter_zero_blocks (init s : List Phase)
    (hinit : ∀ p ∈ init, p = Phase.waiting) (hreach : SemReach 0 init s) :
    s = init ∧ countRunning s = 0 := by
  have hs : s = init := by
    induction hreach with
    | refl => rfl
    | step hr hstep ih =>
      cases hstep with
      | start i hw hc => exact absurd hc (by omega)
      | finish i hr2 =>
        have hmem := List.get?_mem hr2
        rw [ih] at hmem
        exact absurd (hinit _ hmem) (by decide)
  refine ⟨hs, ?_⟩
  rw [hs]
  exact countRunning_all_waiting init hinit

theorem concurrencyLimiter_zero_blocks_witness :
    ([Phase.waiting] : List Phase) = [Phase.waiting] ∧ countRunning [Phase.waiting] = 0 :=
  concurrencyLimiter_zero_blocks [Phase.waiting] [Phase.waiting] (by decide) SemReach.refl
